import Mathlib

set_option maxRecDepth 10000

/-
Verification development for the madrctagger repository
(scripts/madrc_tagger.py).  The Python source is shallowly embedded:
scan records are structures of strings, the four rule modules
(csx6, wave, adni, diffb0) are functions returning voxel-keyed groups of
updates, exceptions become an Except monad, and the reconciling upsert
pass is a function from a scan list and an update list to the list of
note writes it performs.

Modelling assumptions, stated once here:
- Python floats obtained as float(d) for a captured digit string d are
  modelled by the natural number value of d; both str(float(d)) and
  f-string formatting with .1f are modelled as appending ".0", which is
  exact for values below 10^16 (all realistic voxel sizes).
- str.strip, str.lower and the regex class d are modelled over ASCII,
  matching Python on ASCII data (scanner metadata is ASCII).
- The codec chain encode(utf-8) / decode(unicode-escape) is modelled
  byte-exactly for backslash escapes (backslash pairs, letter escapes,
  octal, hex, u and U escapes, line continuation, unknown escapes kept,
  bare backslash-N and truncated escapes are decode errors); named
  escapes backslash-N{name} are modelled as decode errors, and code
  points that are lone surrogates are clamped by Char.ofNat.
-/

namespace MadrcTagger

/-- Decidable equality on Except results, so concrete runs can be
checked by decide. -/
instance {ε α : Type} [DecidableEq ε] [DecidableEq α] : DecidableEq (Except ε α) := fun x y =>
  match x, y with
  | .ok a, .ok b => if h : a = b then .isTrue (by simp [h]) else .isFalse (by simp [h])
  | .error a, .error b => if h : a = b then .isTrue (by simp [h]) else .isFalse (by simp [h])
  | .ok _, .error _ => .isFalse (by simp)
  | .error _, .ok _ => .isFalse (by simp)

/-- Errors a run of the tagger can raise: UnicodeDecodeError from the
image-type decode, IndexError from indexing string.ascii_lowercase,
DiffB0Error and UpsertError from the explicit raise statements. -/
inductive PyErr where
  | unicodeDecodeError : PyErr
  | indexError : PyErr
  | diffB0Error : String → PyErr
  | upsertError : String → PyErr
  deriving Repr, DecidableEq

/-- The --protocol command line choice: v1 or v2. -/
inductive Protocol where
  | v1 | v2
  deriving Repr, DecidableEq

/-- One scan of the session listing, with the fields the tagger reads.
image_type is optional because the source reads it with x.get with a
default of the empty string. -/
structure Scan where
  id : String
  session_project : String
  subject_label : String
  session_label : String
  series_description : String
  image_type : Option String
  quality : String
  note : String
  vox_x : String
  deriving Repr, DecidableEq

/-- One update produced by a rule module: the dictionary appended to a
voxel group, with the same fields as in the source. -/
structure Update where
  project : String
  subject : String
  session : String
  scan : String
  modality : String
  series_description : String
  note : String
  tag : String
  deriving Repr, DecidableEq

/-- A voxel-keyed group map: collections.defaultdict(list), modelled as
an insertion-ordered association list. -/
abbrev Groups (κ : Type) := List (κ × List Update)

/-- Reading groups[k] without inserting: the list for key k, or []. -/
def groupGet {κ : Type} [DecidableEq κ] : Groups κ → κ → List Update
  | [], _ => []
  | (k, us) :: t, key => if k = key then us else groupGet t key

/-- groups[k].append(u) on a defaultdict: extend the entry of k, or
append a fresh key at the end (insertion order preserved). -/
def groupApp {κ : Type} [DecidableEq κ] : Groups κ → κ → Update → Groups κ
  | [], key, u => [(key, [u])]
  | (k, us) :: t, key, u =>
    if k = key then (k, us ++ [u]) :: t else (k, us) :: groupApp t key u

/-- The whitespace set of str.strip (ASCII part). -/
def pyIsWs (c : Char) : Bool :=
  c == ' ' || c == Char.ofNat 9 || c == Char.ofNat 10 || c == Char.ofNat 13
    || c == Char.ofNat 11 || c == Char.ofNat 12

/-- str.strip on a character list: drop leading and trailing whitespace. -/
def stripList (l : List Char) : List Char :=
  ((l.dropWhile pyIsWs).reverse.dropWhile pyIsWs).reverse

/-- str.strip. -/
def pyStrip (s : String) : String :=
  String.mk (stripList s.data)

/-- str.lower (ASCII). -/
def pyLower (s : String) : String :=
  String.mk (s.data.map Char.toLower)

/-- Substring test on character lists, i.e. the Python in operator. -/
def isSubList (ns : List Char) : List Char → Bool
  | [] => ns.isEmpty
  | h :: t => ns.isPrefixOf (h :: t) || isSubList ns t

/-- Python needle in hay for strings. -/
def pyIn (needle hay : String) : Bool :=
  isSubList needle.data hay.data

/-- UTF-8 encoding of one character, as natural-number bytes. -/
def charUtf8 (c : Char) : List Nat :=
  let n := c.toNat
  if n < 128 then [n]
  else if n < 2048 then [192 + n / 64, 128 + n % 64]
  else if n < 65536 then [224 + n / 4096, 128 + (n / 64) % 64, 128 + n % 64]
  else [240 + n / 262144, 128 + (n / 4096) % 64, 128 + (n / 64) % 64, 128 + n % 64]

/-- s.encode(utf-8) as a byte list. -/
def utf8Bytes (s : String) : List Nat :=
  s.data.foldr (fun c acc => charUtf8 c ++ acc) []

/-- Value of one hexadecimal digit byte. -/
def hexVal (b : Nat) : Option Nat :=
  if 48 ≤ b ∧ b ≤ 57 then some (b - 48)
  else if 97 ≤ b ∧ b ≤ 102 then some (b - 87)
  else if 65 ≤ b ∧ b ≤ 70 then some (b - 55)
  else none

/-- Value of a fixed-width hexadecimal digit byte string. -/
def hexList (bs : List Nat) : Option Nat :=
  bs.foldl (fun acc b => acc.bind (fun a => (hexVal b).map (fun h => 16 * a + h))) (some 0)

/-- Is the byte an octal digit. -/
def isOct (b : Nat) : Bool :=
  decide (48 ≤ b ∧ b ≤ 55)

/-- Prepend a character to a decode result. -/
def emap (c : Char) (e : Except PyErr (List Char)) : Except PyErr (List Char) :=
  e.map (fun l => c :: l)

/-- Decode the bytes following one backslash in the unicode-escape
codec: the decoded characters plus how many bytes were consumed.
Non-recursive; the branches mirror the CPython codec (see the file
header for the modelled subset). -/
def unescapeOne : List Nat → Except PyErr (List Char × Nat)
  | [] => .error .unicodeDecodeError
  | b :: r =>
    if b = 92 then .ok ([Char.ofNat 92], 1)
    else if b = 110 then .ok ([Char.ofNat 10], 1)
    else if b = 116 then .ok ([Char.ofNat 9], 1)
    else if b = 114 then .ok ([Char.ofNat 13], 1)
    else if b = 98 then .ok ([Char.ofNat 8], 1)
    else if b = 102 then .ok ([Char.ofNat 12], 1)
    else if b = 97 then .ok ([Char.ofNat 7], 1)
    else if b = 118 then .ok ([Char.ofNat 11], 1)
    else if b = 39 then .ok ([Char.ofNat 39], 1)
    else if b = 34 then .ok ([Char.ofNat 34], 1)
    else if b = 10 then .ok ([], 1)
    else if isOct b then
      match r with
      | [] => .ok ([Char.ofNat (b - 48)], 1)
      | b2 :: r2 =>
        if isOct b2 then
          match r2 with
          | [] => .ok ([Char.ofNat ((b - 48) * 8 + (b2 - 48))], 2)
          | b3 :: _ =>
            if isOct b3 then
              .ok ([Char.ofNat ((b - 48) * 64 + (b2 - 48) * 8 + (b3 - 48))], 3)
            else
              .ok ([Char.ofNat ((b - 48) * 8 + (b2 - 48))], 2)
        else .ok ([Char.ofNat (b - 48)], 1)
    else if b = 120 then
      match r with
      | h1 :: h2 :: _ =>
        match hexList [h1, h2] with
        | some v => .ok ([Char.ofNat v], 3)
        | none => .error .unicodeDecodeError
      | _ => .error .unicodeDecodeError
    else if b = 117 then
      match r with
      | h1 :: h2 :: h3 :: h4 :: _ =>
        match hexList [h1, h2, h3, h4] with
        | some v => .ok ([Char.ofNat v], 5)
        | none => .error .unicodeDecodeError
      | _ => .error .unicodeDecodeError
    else if b = 85 then
      match r with
      | h1 :: h2 :: h3 :: h4 :: h5 :: h6 :: h7 :: h8 :: _ =>
        match hexList [h1, h2, h3, h4, h5, h6, h7, h8] with
        | some v =>
          if v ≤ 1114111 then .ok ([Char.ofNat v], 9)
          else .error .unicodeDecodeError
        | none => .error .unicodeDecodeError
      | _ => .error .unicodeDecodeError
    else if b = 78 then .error .unicodeDecodeError
    else .ok ([Char.ofNat 92, Char.ofNat b], 1)

/-- Fuelled decode loop: structural recursion on a fuel count so that
concrete runs reduce.  Every step consumes at least one byte, so fuel
equal to the byte count never runs out (the fuel-exhausted branch is
unreachable when started by uescape). -/
def uescapeF : Nat → List Nat → Except PyErr (List Char)
  | _, [] => .ok []
  | 0, _ :: _ => .error .unicodeDecodeError
  | fuel + 1, 92 :: rest =>
    match unescapeOne rest with
    | .error e => .error e
    | .ok (cs, k) => (uescapeF fuel (rest.drop k)).map (fun l => cs ++ l)
  | fuel + 1, b :: rest => emap (Char.ofNat b) (uescapeF fuel rest)

/-- bytes.decode(unicode-escape): non-escape bytes decode as latin-1,
backslash escapes via unescapeOne. -/
def uescape (l : List Nat) : Except PyErr (List Char) :=
  uescapeF l.length l

/-- x.encode(utf-8).decode(unicode-escape) for a Python string x. -/
def pyUnicodeEscape (s : String) : Except PyErr String :=
  (uescape (utf8Bytes s)).map String.mk

/-- Consume a literal from the front of the input, as a regex literal
segment does. -/
def chompLit : List Char → List Char → Option (List Char)
  | [], s => some s
  | l :: ls, c :: cs => if l = c then chompLit ls cs else none
  | _ :: _, [] => none

/-- Consume one-or-more digits greedily, as a digit-class-plus segment
followed by a non-digit does. -/
def chompDigits (s : List Char) : Option (List Char) :=
  if (s.takeWhile Char.isDigit).isEmpty then none else some (s.dropWhile Char.isDigit)

/-- Did an anchored pattern consume the whole input. -/
def endsOk : Option (List Char) → Bool
  | some r => r.isEmpty
  | none => false

/-- The dollar anchor of Python re: end of string, or just before one
trailing newline. -/
def pyFullMatch (core : List Char → Bool) (s : List Char) : Bool :=
  core s ||
    (match s.getLast? with
     | some c => c = Char.ofNat 10 && core s.dropLast
     | none => false)

/-- Rightmost-position search: re.match of a pattern starting with a
greedy dot-star tries the remainder pattern at the latest possible
start first, so the last position where p succeeds wins. -/
def lastCapture {α : Type} (p : List Char → Option α) : List Char → Option α
  | [] => p []
  | c :: t =>
    match lastCapture p t with
    | some r => some r
    | none => p (c :: t)

/-- Anchored attempt of the remainder of the pattern
underscore (digits) mmCor underscore of re.match on the csx6 grouping
regex: an underscore, a maximal nonempty digit run, then the literal
mmCor and an underscore; captures the digits. -/
def mmCorHere : List Char → Option (List Char)
  | '_' :: rest =>
    let ds := rest.takeWhile Char.isDigit
    if ds.isEmpty then none
    else if "mmCor_".data.isPrefixOf (rest.dropWhile Char.isDigit) then some ds
    else none
  | _ => none

/-- The csx6 grouping regex: digits captured by the pattern
dot-star underscore (digits) mmCor underscore dot-star. -/
def csx6GroupMatch (s : List Char) : Option (List Char) :=
  lastCapture mmCorHere s

/-- Anchored attempt of the wave grouping regex remainder: underscore,
maximal nonempty digit run, the literal mm, then an optional retro-recon
marker; captures the digits and whether the marker is present. -/
def waveHere : List Char → Option (List Char × Bool)
  | '_' :: rest =>
    let ds := rest.takeWhile Char.isDigit
    if ds.isEmpty then none
    else
      match rest.dropWhile Char.isDigit with
      | 'm' :: 'm' :: tl => some (ds, "_RR".data.isPrefixOf tl)
      | _ => none
  | _ => none

/-- The wave grouping regex dot-star underscore (digits) mm (_RR)?. -/
def waveGroupMatch (s : List Char) : Option (List Char × Bool) :=
  lastCapture waveHere s

/-- Anchored attempt of the diffb0 grouping regex remainder:
underscore, maximal nonempty digit run, the literal mm and an
underscore; captures the digits. -/
def mmUnderHere : List Char → Option (List Char)
  | '_' :: rest =>
    let ds := rest.takeWhile Char.isDigit
    if ds.isEmpty then none
    else if "mm_".data.isPrefixOf (rest.dropWhile Char.isDigit) then some ds
    else none
  | _ => none

/-- The diffb0 grouping regex dot-star underscore (digits) mm underscore dot-star. -/
def diffb0GroupMatch (s : List Char) : Option (List Char) :=
  lastCapture mmUnderHere s

/-- float of a captured digit string, modelled as its natural value. -/
def digitsVal (ds : List Char) : Nat :=
  ds.foldl (fun a c => 10 * a + (c.toNat - 48)) 0

/-- Rendering of the integral voxel float in tags: both str(float) and
formatting with .1f produce this for integral values. -/
def voxFmt (n : Nat) : String :=
  toString n ++ ".0"

/-- string.ascii_lowercase. -/
def asciiLowercase : List Char :=
  "abcdefghijklmnopqrstuvwxyz".data

/-- The update dictionary a rule module appends to a voxel group. -/
def mkUpdate (scan : Scan) (modality series note tag : String) : Update :=
  { project := scan.session_project
    subject := scan.subject_label
    session := scan.session_label
    scan := scan.id
    modality := modality
    series_description := series
    note := note
    tag := tag }

/-- Anchored core of the csx6filter_v1 series regex
WIP925B underscore digits dot digits mmCor underscore digits underscore
digits underscore CSx6. -/
def csx6v1Core (s : List Char) : Bool :=
  endsOk (do
    let s ← chompLit "WIP925B_".data s
    let s ← chompDigits s
    let s ← chompLit ".".data s
    let s ← chompDigits s
    let s ← chompLit "mmCor_".data s
    let s ← chompDigits s
    let s ← chompLit "_".data s
    let s ← chompDigits s
    chompLit "_CSx6".data s)

/-- Anchored core of the csx6filter_v2 series regex WIP19 underscore
1mmCor underscore digits underscore digits underscore CSx6. -/
def csx6v2Core (s : List Char) : Bool :=
  endsOk (do
    let s ← chompLit "WIP19_1mmCor_".data s
    let s ← chompDigits s
    let s ← chompLit "_".data s
    let s ← chompDigits s
    chompLit "_CSx6".data s)

/-- Anchored core of the wavefilter series regex
WIP1084C underscore r3x3 underscore 1mm with optional _RR. -/
def waveCore (s : List Char) : Bool :=
  match chompLit "WIP1084C_r3x3_1mm".data s with
  | some r => r.isEmpty || r = "_RR".data
  | none => false

/-- csx6filter_v1: series matches the v1 pattern, the decoded image
type is the ND NORM string, and quality is usable.  The image-type
decode runs first and its decode error escapes, as in the source. -/
def csx6filter_v1 (x : Scan) : Except PyErr Bool :=
  (pyUnicodeEscape (x.image_type.getD "")).map (fun image_type =>
    pyFullMatch csx6v1Core x.series_description.data
    && image_type == "ORIGINAL\\PRIMARY\\M\\ND\\NORM"
    && x.quality == "usable")

/-- csx6filter_v2: the v2 series pattern and the NONE image type. -/
def csx6filter_v2 (x : Scan) : Except PyErr Bool :=
  (pyUnicodeEscape (x.image_type.getD "")).map (fun image_type =>
    pyFullMatch csx6v2Core x.series_description.data
    && image_type == "ORIGINAL\\PRIMARY\\M\\NONE"
    && x.quality == "usable")

/-- wavefilter: the fixed wave series pattern and the ND NORM image type. -/
def wavefilter (x : Scan) : Except PyErr Bool :=
  (pyUnicodeEscape (x.image_type.getD "")).map (fun image_type =>
    pyFullMatch waveCore x.series_description.data
    && image_type == "ORIGINAL\\PRIMARY\\M\\ND\\NORM"
    && x.quality == "usable")

/-- adnifilter_v1: exact series description and usable quality. -/
def adnifilter_v1 (x : Scan) : Bool :=
  x.series_description == "Accelerated Sagittal MPRAGE (MSV21)" && x.quality == "usable"

/-- adnifilter_v2: exact series description and usable quality. -/
def adnifilter_v2 (x : Scan) : Bool :=
  x.series_description == "Accelerated Sagittal MPRAGE" && x.quality == "usable"

/-- diffb0filter: exact series description and usable quality. -/
def diffb0filter (x : Scan) : Bool :=
  x.series_description == "CMRR_DiffPA_2mm_4b0" && x.quality == "usable"

/-- The loop of the csx6 module: lazily filter each scan (a decode
error in the filter escapes), run the grouping regex on the stripped
series description, read the positional suffix from ascii_lowercase at
the current group length (IndexError when the group already holds the
whole alphabet), and append the tagged update to its voxel group. -/
def csx6Go (flt : Scan → Except PyErr Bool) :
    List Scan → Groups Nat → Except PyErr (Groups Nat)
  | [], groups => .ok groups
  | scan :: rest, groups =>
    match flt scan with
    | .error e => .error e
    | .ok keep =>
      if keep then
        let series := pyStrip scan.series_description
        let note := pyStrip scan.note
        match csx6GroupMatch series.data with
        | none => csx6Go flt rest groups
        | some ds =>
          let vox := digitsVal ds
          let n := (groupGet groups vox).length
          if h : n < asciiLowercase.length then
            let tag := "ANAT_" ++ voxFmt vox ++ "_CSx6_"
              ++ String.singleton (asciiLowercase.get ⟨n, h⟩)
            csx6Go flt rest (groupApp groups vox (mkUpdate scan "t1w" series note tag))
          else .error .indexError
      else csx6Go flt rest groups

/-- The csx6 rule module: select the filter by protocol, then run the loop. -/
def csx6 (scans : List Scan) (protocol : Protocol) : Except PyErr (Groups Nat) :=
  let flt := match protocol with
    | .v1 => csx6filter_v1
    | .v2 => csx6filter_v2
  csx6Go flt scans []

/-- The loop of the wave module, carrying the retro-recon counters
rr_num and rr_tag.  The positional suffix is read before the
retro-recon handling, as in the source. -/
def waveGo : List Scan → Nat → Nat → Groups Nat → Except PyErr (Groups Nat)
  | [], _, _, groups => .ok groups
  | scan :: rest, rr_num, rr_tag, groups =>
    match wavefilter scan with
    | .error e => .error e
    | .ok keep =>
      if keep then
        let series := pyStrip scan.series_description
        let note := pyStrip scan.note
        match waveGroupMatch series.data with
        | none => waveGo rest rr_num rr_tag groups
        | some (ds, is_rr) =>
          let vox := digitsVal ds
          let n := (groupGet groups vox).length
          if h : n < asciiLowercase.length then
            let suffix := asciiLowercase.get ⟨n, h⟩
            let tag := "ANAT_" ++ voxFmt vox ++ "_WAVE"
            if is_rr then
              let rr_num2 := rr_num + 1
              let m := rr_num2 % 2
              let rr_tag2 := rr_tag + m
              let rr_res := if m == 0 then "0.0" else "0.1"
              let tag := tag ++ "_RR" ++ toString rr_tag2 ++ "_" ++ rr_res
                ++ "_" ++ String.singleton suffix
              waveGo rest rr_num2 rr_tag2
                (groupApp groups vox (mkUpdate scan "t1w" series note tag))
            else
              let tag := tag ++ "_" ++ String.singleton suffix
              waveGo rest rr_num rr_tag
                (groupApp groups vox (mkUpdate scan "t1w" series note tag))
          else .error .indexError
      else waveGo rest rr_num rr_tag groups

/-- The wave rule module; the protocol argument is accepted and unused,
as in the source. -/
def wave (scans : List Scan) (_protocol : Protocol) : Except PyErr (Groups Nat) :=
  waveGo scans 0 0 []

/-- The loop of the adni module: no grouping regex and no suffix, so it
is total; groups are keyed by the raw vox_x value. -/
def adniGo (flt : Scan → Bool) : List Scan → Groups String → Groups String
  | [], groups => groups
  | scan :: rest, groups =>
    if flt scan then
      let series := pyStrip scan.series_description
      let note := pyStrip scan.note
      let vox := scan.vox_x
      let tag := "ANAT_" ++ vox ++ "_ADNI"
      adniGo flt rest (groupApp groups vox (mkUpdate scan "t1w" series note tag))
    else adniGo flt rest groups

/-- The adni rule module. -/
def adni (scans : List Scan) (protocol : Protocol) : Groups String :=
  let flt := match protocol with
    | .v1 => adnifilter_v1
    | .v2 => adnifilter_v2
  adniGo flt scans []

/-- The loop of the diffb0 module, carrying the match count, which
starts at 1; a third match raises DiffB0Error before being tagged. -/
def diffb0Go : List Scan → Nat → Groups Nat → Except PyErr (Groups Nat)
  | [], _, groups => .ok groups
  | scan :: rest, count, groups =>
    if diffb0filter scan then
      let series := pyStrip scan.series_description
      let note := pyStrip scan.note
      match diffb0GroupMatch series.data with
      | none => diffb0Go rest count groups
      | some ds =>
        if count > 2 then .error (.diffB0Error "found too many diff b0 scans")
        else
          let vox := digitsVal ds
          let suffix := if count == 1 then "Set12" else "Set34"
          let tag := "DIFF_" ++ voxFmt vox ++ "_4B0_" ++ suffix
          diffb0Go rest (count + 1) (groupApp groups vox (mkUpdate scan "b0" series note tag))
    else diffb0Go rest count groups

/-- The diffb0 rule module; the protocol argument is accepted and
unused, as in the source. -/
def diffb0 (scans : List Scan) (_protocol : Protocol) : Except PyErr (Groups Nat) :=
  diffb0Go scans 1 []

/-- The updates dictionary built in main, in its insertion order. -/
structure UpdatesMap where
  csx6 : Groups Nat
  wave : Groups Nat
  adni : Groups String
  diffb0 : Groups Nat
  deriving Repr, DecidableEq

/-- Flatten one groups mapping in key-insertion order. -/
def flattenG {κ : Type} : Groups κ → List Update
  | [] => []
  | (_, us) :: t => us ++ flattenG t

/-- squeeze: flatten the module-keyed dictionary of groups into the
single update sequence, in dictionary insertion order. -/
def squeeze (m : UpdatesMap) : List Update :=
  flattenG m.csx6 ++ flattenG m.wave ++ flattenG m.adni ++ flattenG m.diffb0

/-- The loop of upsert over the scan listing, carrying the running t1w
counter.  For each scan: collect the updates claiming its id; none
means skip, two or more raise UpsertError; otherwise strip the note,
tag and modality of the single update, bump the t1w counter on a t1w
modality regardless of novelty, and when the tag is not already a
substring of the note emit the composed note text for that scan. -/
def upsertGo (overwrite : Bool) (updates : List Update) :
    List Scan → Nat → Except PyErr (List (String × String))
  | [], _ => .ok []
  | scan :: rest, t1w =>
    let sid := scan.id
    match updates.filter (fun u => u.scan == sid) with
    | [] => upsertGo overwrite updates rest t1w
    | [u] =>
      let note := pyStrip u.note
      let tag := pyStrip u.tag
      let modality := pyStrip u.modality
      let t1w2 := if pyLower modality == "t1w" then t1w + 1 else t1w
      if pyIn tag note then upsertGo overwrite updates rest t1w2
      else
        let text := if note != "" && !overwrite then tag ++ " " ++ note else tag
        let text := if pyLower modality == "t1w" then text ++ " #T1w_" ++ toString t1w2
          else text
        Except.map (fun outs => (sid, text) :: outs) (upsertGo overwrite updates rest t1w2)
    | _ :: _ :: _ => .error (.upsertError ("found too many updates for scan " ++ sid))

/-- upsert: squeeze the updates dictionary and walk the scan listing
with the t1w counter starting at 0.  The alias and confirm arguments of
the source are authentication and interactive prompting, external to
the classifier; the note writes it would send are returned as
scan-id and note-text pairs. -/
def upsert (scans : List Scan) (updates : UpdatesMap) (overwrite : Bool) :
    Except PyErr (List (String × String)) :=
  upsertGo overwrite (squeeze updates) scans 0

/-- The classification pass of main: run the four rule modules in the
insertion order of the updates dictionary. -/
def classify (scans : List Scan) (protocol : Protocol) : Except PyErr UpdatesMap :=
  match csx6 scans protocol with
  | .error e => .error e
  | .ok c =>
    match wave scans protocol with
    | .error e => .error e
    | .ok w =>
      let a := adni scans protocol
      match diffb0 scans protocol with
      | .error e => .error e
      | .ok d => .ok ⟨c, w, a, d⟩

/-- Classify then upsert: the whole tagging pass of main for one
session. -/
def tagSession (scans : List Scan) (protocol : Protocol) (overwrite : Bool) :
    Except PyErr (List (String × String)) :=
  match classify scans protocol with
  | .error e => .error e
  | .ok m => upsert scans m overwrite

/-
Concrete sample scans.  The raw image_type field of the archive holds
doubled backslashes, which the unicode-escape decode collapses; the
literals below hold two backslash characters per separator and decode
to the single-backslash comparison strings of the filters.
-/

/-- Raw ND NORM image type as delivered (doubled backslashes). -/
def itNDNORMraw : String := "ORIGINAL\\\\PRIMARY\\\\M\\\\ND\\\\NORM"

/-- Raw NONE image type as delivered (doubled backslashes). -/
def itNONEraw : String := "ORIGINAL\\\\PRIMARY\\\\M\\\\NONE"

/-- The example scan of the specification: v1 csx6 naming, usable, ND
NORM image type, empty note. -/
def c1scan : Scan :=
  { id := "4", session_project := "P", subject_label := "S", session_label := "E1",
    series_description := "WIP925B_1.0mmCor_1_2_CSx6", image_type := some itNDNORMraw,
    quality := "usable", note := "", vox_x := "1.0" }

/-- A usable v2 csx6 scan with the given id and note. -/
def v2scan (i : String) (note : String) : Scan :=
  { id := i, session_project := "P", subject_label := "S", session_label := "E1",
    series_description := "WIP19_1mmCor_1_2_CSx6", image_type := some itNONEraw,
    quality := "usable", note := note, vox_x := "1.0" }

/-- A usable retro-recon wave scan with the given id. -/
def rrscan (i : String) : Scan :=
  { id := i, session_project := "P", subject_label := "S", session_label := "E1",
    series_description := "WIP1084C_r3x3_1mm_RR", image_type := some itNDNORMraw,
    quality := "usable", note := "", vox_x := "1.0" }

/-- A usable diffusion b0 scan with the given id. -/
def b0scan (i : String) : Scan :=
  { id := i, session_project := "P", subject_label := "S", session_label := "E1",
    series_description := "CMRR_DiffPA_2mm_4b0", image_type := none,
    quality := "usable", note := "", vox_x := "2.0" }

/-- C1: the specification says the v1 example scan (series description
WIP925B_1.0mmCor_1_2_CSx6, ND NORM image type, usable, voxel 1.0)
receives the tag ANAT_1.0_CSx6_a and, with an empty note in append
mode, the new note ANAT_1.0_CSx6_a #T1w_1.  The code disagrees: the
scan passes csx6filter_v1, but the grouping regex
dot-star underscore (digits) mmCor requires an underscore directly
before the digit run, which the decimal voxel token 1.0mmCor admitted
by the v1 filter can never satisfy, so the csx6 module drops the scan
silently, produces no update for it, and the whole pass writes
nothing.  The specification states the clear intent; the grouping
regex is the slip. -/
theorem c1_csx6_v1_example_produces_nothing :
    csx6filter_v1 c1scan = .ok true
    ∧ csx6GroupMatch (pyStrip c1scan.series_description).data = none
    ∧ csx6 [c1scan] .v1 = .ok []
    ∧ tagSession [c1scan] .v1 false = .ok [] := by
  refine ⟨by decide, by decide, by decide, by decide⟩

/-- C9: both alphabet-indexing modules are bounded at 26 per voxel
group: on the 27th matching scan with the same voxel size, indexing
string.ascii_lowercase with the group length raises IndexError instead
of producing a tag, for csx6 (v2 naming, whose scans the grouping
regex accepts) and for wave alike. -/
theorem c9_alphabet_bound_27th_match_fails :
    csx6 (List.replicate 27 (v2scan "9" "")) .v2 = .error .indexError
    ∧ wave (List.replicate 27 (rrscan "9")) .v1 = .error .indexError := by
  refine ⟨by decide, by decide⟩

/-- C2, counterexample: the claim says the tag counter written into
the retro-recon tag (the n of _RR{n}_) is 0 for the first retro-recon
match.  Running wave on four retro-recon scans shows the written
counters are 1,1,2,2: the source increments rr_tag before formatting,
so the first tag carries _RR1_, never _RR0_. -/
theorem c2_wave_rr_counter_counterexample :
    (wave [rrscan "1", rrscan "2", rrscan "3", rrscan "4"] .v1).map
        (fun g => (flattenG g).map (fun u => u.tag))
      = .ok ["ANAT_1.0_WAVE_RR1_0.1_a", "ANAT_1.0_WAVE_RR1_0.0_b",
             "ANAT_1.0_WAVE_RR2_0.1_c", "ANAT_1.0_WAVE_RR2_0.0_d"]
    ∧ pyIn "_RR0_" "ANAT_1.0_WAVE_RR1_0.1_a" = false
    ∧ pyIn "_RR1_" "ANAT_1.0_WAVE_RR1_0.1_a" = true := by
  refine ⟨by decide, by decide, by decide⟩

/-- C2, amended: for four retro-recon matches encountered in order in
one wave invocation, the resolution labels are 0.1, 0.0, 0.1, 0.0 and
the tag counters written into the tags are 1, 1, 2, 2 (not 0, 1, 1, 2):
the tags are ANAT_1.0_WAVE_RR1_0.1_a, _RR1_0.0_b, _RR2_0.1_c,
_RR2_0.0_d in encounter order, for any four usable retro-recon scans. -/
theorem c2_wave_rr_alternation_amended
    (id1 id2 id3 id4 pr su se n1 n2 n3 n4 vx : String) (p : Protocol) :
    (wave
      [⟨id1, pr, su, se, "WIP1084C_r3x3_1mm_RR", some itNDNORMraw, "usable", n1, vx⟩,
       ⟨id2, pr, su, se, "WIP1084C_r3x3_1mm_RR", some itNDNORMraw, "usable", n2, vx⟩,
       ⟨id3, pr, su, se, "WIP1084C_r3x3_1mm_RR", some itNDNORMraw, "usable", n3, vx⟩,
       ⟨id4, pr, su, se, "WIP1084C_r3x3_1mm_RR", some itNDNORMraw, "usable", n4, vx⟩] p).map
        (fun g => (flattenG g).map (fun u => u.tag))
      = .ok ["ANAT_1.0_WAVE_RR1_0.1_a", "ANAT_1.0_WAVE_RR1_0.0_b",
             "ANAT_1.0_WAVE_RR2_0.1_c", "ANAT_1.0_WAVE_RR2_0.0_d"] := by
  rfl

/-- C4: in the reconciliation loop, a scan claimed by no update is
skipped with nothing changed (the run continues on the remaining scans
with the same counter state), and a scan claimed by more than one
update raises UpsertError at once. -/
theorem c4_upsert_skip_and_ambiguous (overwrite : Bool) (us : List Update)
    (t1w : Nat) (s : Scan) (rest : List Scan) :
    (us.filter (fun u => u.scan == s.id) = [] →
      upsertGo overwrite us (s :: rest) t1w = upsertGo overwrite us rest t1w)
    ∧ (1 < (us.filter (fun u => u.scan == s.id)).length →
      upsertGo overwrite us (s :: rest) t1w
        = .error (.upsertError ("found too many updates for scan " ++ s.id))) := by
  constructor
  · intro h
    simp only [upsertGo, h]
  · intro h
    match hm : us.filter (fun u => u.scan == s.id) with
    | [] => rw [hm] at h; simp at h
    | [u] => rw [hm] at h; simp at h
    | a :: b :: t => simp only [upsertGo, hm]

/-- A scan used to witness the reconciliation theorems. -/
def w4scan : Scan :=
  { id := "7", session_project := "P", subject_label := "S", session_label := "E1",
    series_description := "sd", image_type := none,
    quality := "usable", note := "", vox_x := "1.0" }

/-- An update claiming the witness scan. -/
def w4upd : Update :=
  { project := "P", subject := "S", session := "E1", scan := "7",
    modality := "t1w", series_description := "sd", note := "", tag := "T" }

/-- C4, witness: zero matches skip, two matches raise. -/
theorem c4_upsert_skip_and_ambiguous_witness :
    ([] : List Update).filter (fun u => u.scan == w4scan.id) = []
    ∧ upsertGo false [] [w4scan] 0 = upsertGo false [] ([] : List Scan) 0
    ∧ 1 < ([w4upd, w4upd].filter (fun u => u.scan == w4scan.id)).length
    ∧ upsertGo false [w4upd, w4upd] [w4scan] 0
        = .error (.upsertError ("found too many updates for scan " ++ w4scan.id)) :=
  ⟨by decide,
   (c4_upsert_skip_and_ambiguous false [] 0 w4scan []).1 (by decide),
   by decide,
   (c4_upsert_skip_and_ambiguous false [w4upd, w4upd] 0 w4scan []).2 (by decide)⟩

/-- C8: for a scan with exactly one matching update whose stripped note
does not already contain the stripped tag, the emitted note is the tag
followed by a space and the note when appending to a nonempty note,
and the tag alone in overwrite mode or for an empty note, with the
space-hash-T1w counter suffix appended exactly when the modality is
t1w; the run then continues on the remaining scans with the bumped
counter. -/
theorem c8_upsert_note_composition (overwrite : Bool) (us : List Update)
    (t1w : Nat) (s : Scan) (rest : List Scan) (u : Update)
    (hu : us.filter (fun v => v.scan == s.id) = [u])
    (hnew : pyIn (pyStrip u.tag) (pyStrip u.note) = false) :
    upsertGo overwrite us (s :: rest) t1w =
      Except.map
        (fun outs => (s.id,
          (if pyStrip u.note != "" && !overwrite
            then pyStrip u.tag ++ " " ++ pyStrip u.note
            else pyStrip u.tag)
          ++ (if pyLower (pyStrip u.modality) == "t1w"
            then " #T1w_" ++ toString (t1w + 1) else "")) :: outs)
        (upsertGo overwrite us rest
          (if pyLower (pyStrip u.modality) == "t1w" then t1w + 1 else t1w)) := by
  simp only [upsertGo, hu, hnew]
  cases hmod : pyLower (pyStrip u.modality) == "t1w" <;>
    simp [hmod, String.append_assoc]

/-- An update with a nonempty note for the C8 witness, claiming the
C4 witness scan. -/
def w8upd : Update :=
  { project := "P", subject := "S", session := "E1", scan := "7",
    modality := "t1w", series_description := "sd", note := "hello", tag := "T" }

/-- C8, witness: one t1w update with note hello and tag T in append
mode yields the note text T hello followed by the T1w 1 suffix. -/
theorem c8_upsert_note_composition_witness :
    [w8upd].filter (fun v => v.scan == w4scan.id) = [w8upd]
    ∧ pyIn (pyStrip w8upd.tag) (pyStrip w8upd.note) = false
    ∧ upsertGo false [w8upd] [w4scan] 0 = .ok [("7", "T hello #T1w_1")] :=
  ⟨by decide, by decide, by
    rw [c8_upsert_note_composition false [w8upd] 0 w4scan [] w8upd (by decide) (by decide)]
    decide⟩

/-- The entry groupGet reads is a member of the group map, unless the
key is absent. -/
theorem groupGet_mem {κ : Type} [DecidableEq κ] (g : Groups κ) (k : κ) :
    groupGet g k = [] ∨ (k, groupGet g k) ∈ g := by
  induction g with
  | nil => exact Or.inl rfl
  | cons p t ih =>
    obtain ⟨k2, us⟩ := p
    by_cases hk : k2 = k
    · subst hk
      right
      simp [groupGet]
    · rcases ih with h | h
      · exact Or.inl (by simpa [groupGet, hk] using h)
      · refine Or.inr ?_
        simp only [groupGet, if_neg hk]
        exact List.mem_cons_of_mem _ h

/-- A pointwise property survives a defaultdict append when it holds
for the old entries and for the extended entry of the touched key. -/
theorem groupApp_forall {κ : Type} [DecidableEq κ] (Q : κ × List Update → Prop)
    (g : Groups κ) (k : κ) (u : Update)
    (hg : ∀ p ∈ g, Q p) (hnew : Q (k, groupGet g k ++ [u])) :
    ∀ p ∈ groupApp g k u, Q p := by
  induction g with
  | nil =>
    intro p hp
    simp only [groupApp, List.mem_singleton] at hp
    subst hp
    simpa [groupGet] using hnew
  | cons q t ih =>
    obtain ⟨k2, us⟩ := q
    by_cases hk : k2 = k
    · subst hk
      intro p hp
      simp only [groupApp, if_pos rfl] at hp
      rcases List.mem_cons.mp hp with h | h
      · subst h
        simpa [groupGet] using hnew
      · exact hg _ (List.mem_cons_of_mem _ h)
    · intro p hp
      simp only [groupApp, if_neg hk] at hp
      rcases List.mem_cons.mp hp with h | h
      · subst h
        exact hg _ (List.mem_cons_self _ _)
      · refine ih (fun q2 hq2 => hg _ (List.mem_cons_of_mem _ hq2)) ?_ _ h
        simpa [groupGet, hk] using hnew

/-- Invariant of the csx6 grouping loop: every voxel group holds at
most the alphabet, and its zero-indexed i-th update is tagged with the
i-th lowercase letter as suffix. -/
def csx6Inv (g : Groups Nat) : Prop :=
  ∀ p ∈ g, p.2.length ≤ 26 ∧ ∀ i u, p.2[i]? = some u →
    u.tag = "ANAT_" ++ voxFmt p.1 ++ "_CSx6_" ++ String.singleton (asciiLowercase.getD i 'a')

/-- The csx6 loop preserves the positional-suffix invariant. -/
theorem csx6Go_inv (flt : Scan → Except PyErr Bool) :
    ∀ (scans : List Scan) (groups g : Groups Nat),
      csx6Inv groups → csx6Go flt scans groups = .ok g → csx6Inv g := by
  intro scans
  induction scans with
  | nil =>
    intro groups g hinv hok
    simp only [csx6Go] at hok
    cases hok
    exact hinv
  | cons scan rest ih =>
    intro groups g hinv hok
    simp only [csx6Go] at hok
    cases hflt : flt scan with
    | error e => rw [hflt] at hok; simp at hok
    | ok keep =>
      rw [hflt] at hok
      cases keep with
      | false =>
        simp only [if_neg Bool.false_ne_true] at hok
        exact ih _ _ hinv hok
      | true =>
        simp only [if_pos rfl] at hok
        cases hm : csx6GroupMatch (pyStrip scan.series_description).data with
        | none =>
          simp only [hm] at hok
          exact ih _ _ hinv hok
        | some ds =>
          simp only [hm] at hok
          by_cases h : (groupGet groups (digitsVal ds)).length < asciiLowercase.length
          case pos =>
            rw [dif_pos h] at hok
            refine ih _ _ ?_ hok
            refine groupApp_forall _ _ _ _ hinv ?_
            have hlen : asciiLowercase.length = 26 := by decide
            dsimp only
            constructor
            · simp only [List.length_append, List.length_singleton]
              omega
            · intro i u hget
              set n := (groupGet groups (digitsVal ds)).length with hn
              rcases lt_trichotomy i n with hil | hie | hig
              · rw [List.getElem?_append_left (by simpa [hn] using hil)] at hget
                rcases groupGet_mem groups (digitsVal ds) with hemp | hmem2
                · rw [hemp] at hget
                  simp at hget
                · exact (hinv _ hmem2).2 i u hget
              · subst hie
                rw [hn, List.getElem?_concat_length] at hget
                cases hget
                simp only [mkUpdate]
                have : asciiLowercase.getD n 'a' = asciiLowercase.get ⟨n, h⟩ := by
                  simp [List.getD, List.getElem?_eq_getElem h, List.get_eq_getElem]
                rw [this]
              · have : (groupGet groups (digitsVal ds) ++
                    [mkUpdate scan "t1w" (pyStrip scan.series_description)
                      (pyStrip scan.note)
                      ("ANAT_" ++ voxFmt (digitsVal ds) ++ "_CSx6_"
                        ++ String.singleton (asciiLowercase.get ⟨n, h⟩))])[i]? = none := by
                  apply List.getElem?_eq_none
                  simp only [List.length_append, List.length_singleton]
                  omega
                rw [this] at hget
                cases hget
          case neg =>
            rw [dif_neg h] at hok
            simp at hok

/-- C7: in the csx6 module, within each voxel-size group the
positional suffix letters are assigned in strict encounter order
starting at the letter a: the zero-indexed i-th update of the group
for voxel size k carries the tag ANAT_{k}.0_CSx6_{i-th lowercase
letter}. -/
theorem c7_csx6_suffix_positional (scans : List Scan) (protocol : Protocol)
    (g : Groups Nat) (hok : csx6 scans protocol = .ok g) :
    ∀ k us, (k, us) ∈ g → ∀ i u, us[i]? = some u →
      u.tag = "ANAT_" ++ voxFmt k ++ "_CSx6_"
        ++ String.singleton (asciiLowercase.getD i 'a') := by
  have hinv : csx6Inv g := by
    simp only [csx6] at hok
    refine csx6Go_inv _ scans [] g ?_ hok
    intro p hp
    simp at hp
  intro k us hmem i u hget
  exact (hinv (k, us) hmem).2 i u hget

/-- The concrete csx6 output used by the C7 witness. -/
def c7g0 : Groups Nat :=
  [(1, [mkUpdate (v2scan "1" "") "t1w" "WIP19_1mmCor_1_2_CSx6" "" "ANAT_1.0_CSx6_a",
        mkUpdate (v2scan "2" "") "t1w" "WIP19_1mmCor_1_2_CSx6" "" "ANAT_1.0_CSx6_b"])]

/-- C7, witness: two v2 scans land in voxel group 1 with suffixes a
and b; the second (index 1) carries the letter b. -/
theorem c7_csx6_suffix_positional_witness :
    csx6 [v2scan "1" "", v2scan "2" ""] .v2 = .ok c7g0
    ∧ ((1 : Nat), (groupGet c7g0 1)) ∈ c7g0
    ∧ (groupGet c7g0 1)[1]? =
        some (mkUpdate (v2scan "2" "") "t1w" "WIP19_1mmCor_1_2_CSx6" "" "ANAT_1.0_CSx6_b")
    ∧ (mkUpdate (v2scan "2" "") "t1w" "WIP19_1mmCor_1_2_CSx6" "" "ANAT_1.0_CSx6_b").tag
        = "ANAT_" ++ voxFmt 1 ++ "_CSx6_" ++ String.singleton (asciiLowercase.getD 1 'a') :=
  ⟨by decide, by decide, by decide,
   c7_csx6_suffix_positional [v2scan "1" "", v2scan "2" ""] .v2 c7g0 (by decide)
     1 (groupGet c7g0 1) (by decide) 1 _ (by decide)⟩

/-- Every scan the diffb0 filter keeps carries exactly the expected
series description. -/
theorem diffb0filter_series (s : Scan) (h : diffb0filter s = true) :
    s.series_description = "CMRR_DiffPA_2mm_4b0" := by
  simp only [diffb0filter, Bool.and_eq_true, beq_iff_eq] at h
  exact h.1

/-- The diffb0 loop keeps the group map on the single voxel key 2 with
only the two set tags, whatever the counter state. -/
theorem diffb0Go_shape :
    ∀ (scans : List Scan) (count : Nat) (groups g : Groups Nat),
      (groups = [] ∨ ∃ us, groups = [(2, us)]) →
      (∀ u ∈ flattenG groups,
        u.tag = "DIFF_2.0_4B0_Set12" ∨ u.tag = "DIFF_2.0_4B0_Set34") →
      diffb0Go scans count groups = .ok g →
      (g = [] ∨ ∃ us, g = [(2, us)])
      ∧ ∀ u ∈ flattenG g,
        u.tag = "DIFF_2.0_4B0_Set12" ∨ u.tag = "DIFF_2.0_4B0_Set34" := by
  intro scans
  induction scans with
  | nil =>
    intro count groups g h1 h2 hok
    simp only [diffb0Go] at hok
    cases hok
    exact ⟨h1, h2⟩
  | cons scan rest ih =>
    intro count groups g h1 h2 hok
    simp only [diffb0Go] at hok
    cases hf : diffb0filter scan with
    | false =>
      simp only [hf, Bool.false_eq_true, if_false] at hok
      exact ih _ _ _ h1 h2 hok
    | true =>
      simp only [hf, if_true] at hok
      rw [diffb0filter_series scan hf] at hok
      have hm : diffb0GroupMatch (pyStrip "CMRR_DiffPA_2mm_4b0").data = some ['2'] := by
        decide
      simp only [hm] at hok
      by_cases hc : count > 2
      case pos =>
        rw [if_pos hc] at hok
        simp at hok
      case neg =>
        rw [if_neg hc] at hok
        have hval : digitsVal ['2'] = 2 := by decide
        rw [hval] at hok
        have htag : ("DIFF_" ++ voxFmt 2 ++ "_4B0_"
            ++ (if count == 1 then "Set12" else "Set34")) = "DIFF_2.0_4B0_Set12"
            ∨ ("DIFF_" ++ voxFmt 2 ++ "_4B0_"
            ++ (if count == 1 then "Set12" else "Set34")) = "DIFF_2.0_4B0_Set34" := by
          cases hcount : count == 1 with
          | false => right; rw [if_neg (by simp [hcount])]; decide
          | true => left; rw [if_pos (by simp [hcount])]; decide
        rcases h1 with hng | ⟨us, hng⟩
        · subst hng
          refine ih _ _ _ ?_ ?_ hok
          · exact Or.inr ⟨_, rfl⟩
          · intro u hu
            simp only [groupApp, flattenG, List.append_nil] at hu
            rw [List.mem_singleton] at hu
            subst hu
            exact htag
        · subst hng
          refine ih _ _ _ ?_ ?_ hok
          · exact Or.inr ⟨_, rfl⟩
          · intro u hu
            simp only [groupApp, if_pos rfl, flattenG, List.append_nil] at hu
            rw [List.mem_append] at hu
            rcases hu with hu | hu
            · exact h2 u (by simpa [flattenG] using hu)
            · rw [List.mem_singleton] at hu
              subst hu
              exact htag

/-- C10: every update the diffb0 module returns sits under the single
voxel key 2 (the captured voxel is always 2, so the group map is empty
or exactly one entry keyed 2), and its tag is DIFF_2.0_4B0_Set12 or
DIFF_2.0_4B0_Set34. -/
theorem c10_diffb0_invariant (scans : List Scan) (p : Protocol) (g : Groups Nat)
    (hok : diffb0 scans p = .ok g) :
    (g = [] ∨ ∃ us, g = [(2, us)])
    ∧ ∀ u ∈ flattenG g,
      u.tag = "DIFF_2.0_4B0_Set12" ∨ u.tag = "DIFF_2.0_4B0_Set34" := by
  refine diffb0Go_shape scans 1 [] g (Or.inl rfl) ?_ hok
  intro u hu
  simp [flattenG] at hu

/-- The update the C10 witness inspects: the first of a two-scan
diffb0 run. -/
def c10u1 : Update :=
  mkUpdate (b0scan "1") "b0" "CMRR_DiffPA_2mm_4b0" "" "DIFF_2.0_4B0_Set12"

/-- The group map a two-scan diffb0 run returns. -/
def c10g0 : Groups Nat :=
  [(2, [c10u1, mkUpdate (b0scan "2") "b0" "CMRR_DiffPA_2mm_4b0" "" "DIFF_2.0_4B0_Set34"])]

/-- C10, witness at a concrete two-scan run. -/
theorem c10_diffb0_invariant_witness :
    diffb0 [b0scan "1", b0scan "2"] .v1 = .ok c10g0
    ∧ c10u1 ∈ flattenG c10g0
    ∧ (c10u1.tag = "DIFF_2.0_4B0_Set12" ∨ c10u1.tag = "DIFF_2.0_4B0_Set34") :=
  ⟨by decide, by decide,
   (c10_diffb0_invariant [b0scan "1", b0scan "2"] .v1 c10g0 (by decide)).2
     c10u1 (by decide)⟩

/-- The set tag diffb0 writes for the match counted as count. -/
def setTagFor (count : Nat) : String :=
  "DIFF_2.0_4B0_" ++ (if count == 1 then "Set12" else "Set34")

/-- One step of the diffb0 loop on a matching scan, in closed form. -/
theorem diffb0Go_step (scan : Scan) (rest : List Scan) (count : Nat)
    (g : Groups Nat) (hf : diffb0filter scan = true) :
    diffb0Go (scan :: rest) count g =
      (if count > 2 then .error (.diffB0Error "found too many diff b0 scans")
       else diffb0Go rest (count + 1)
         (groupApp g 2 (mkUpdate scan "b0" (pyStrip "CMRR_DiffPA_2mm_4b0")
           (pyStrip scan.note) (setTagFor count)))) := by
  simp only [diffb0Go, hf, if_true]
  rw [diffb0filter_series scan hf]
  have hm : diffb0GroupMatch (pyStrip "CMRR_DiffPA_2mm_4b0").data = some ['2'] := by
    decide
  simp only [hm]
  have hval : digitsVal ['2'] = 2 := by decide
  rw [hval]
  have htag : ("DIFF_" ++ voxFmt 2 ++ "_4B0_"
      ++ (if count == 1 then "Set12" else "Set34")) = setTagFor count := by
    cases hcount : count == 1 with
    | false => simp only [setTagFor, hcount, if_false]; rfl
    | true => simp only [setTagFor, hcount, if_true]; rfl
  rw [htag]

/-- Full characterisation of the diffb0 loop started on the single
voxel-2 entry: with k remaining filter matches, the loop raises
DiffB0Error exactly when the counter would pass 2 (one or more matches
and count + k at least 4), and otherwise appends one update per match
whose tags are the set tags of counts count, count+1, and so on. -/
theorem diffb0Go_seq :
    ∀ (scans : List Scan) (count : Nat) (us0 : List Update),
      (1 ≤ (scans.filter diffb0filter).length
          ∧ 4 ≤ count + (scans.filter diffb0filter).length →
        diffb0Go scans count [(2, us0)]
          = .error (.diffB0Error "found too many diff b0 scans"))
      ∧ (¬(1 ≤ (scans.filter diffb0filter).length
          ∧ 4 ≤ count + (scans.filter diffb0filter).length) →
        ∃ us1, diffb0Go scans count [(2, us0)] = .ok [(2, us0 ++ us1)]
          ∧ us1.map (fun u => u.tag)
            = (List.range (scans.filter diffb0filter).length).map
                (fun j => setTagFor (count + j))) := by
  intro scans
  induction scans with
  | nil =>
    intro count us0
    constructor
    · intro h
      simp at h
    · intro h
      refine ⟨[], by simp [diffb0Go], by simp⟩
  | cons scan rest ih =>
    intro count us0
    cases hf : diffb0filter scan with
    | false =>
      have hfilters : (scan :: rest).filter diffb0filter = rest.filter diffb0filter := by
        simp [List.filter_cons, hf]
      have hstep : diffb0Go (scan :: rest) count [(2, us0)]
          = diffb0Go rest count [(2, us0)] := by
        simp only [diffb0Go, hf, Bool.false_eq_true, if_false]
      rw [hfilters, hstep]
      exact ih count us0
    | true =>
      have hfilters : (scan :: rest).filter diffb0filter
          = scan :: rest.filter diffb0filter := by
        simp [List.filter_cons, hf]
      rw [hfilters, diffb0Go_step scan rest count [(2, us0)] hf, List.length_cons]
      have hga : groupApp [(2, us0)] 2
          (mkUpdate scan "b0" (pyStrip "CMRR_DiffPA_2mm_4b0")
            (pyStrip scan.note) (setTagFor count))
          = [(2, us0 ++ [mkUpdate scan "b0" (pyStrip "CMRR_DiffPA_2mm_4b0")
            (pyStrip scan.note) (setTagFor count)])] := rfl
      constructor
      · intro h
        by_cases hc : count > 2
        · rw [if_pos hc]
        · rw [if_neg hc, hga]
          refine (ih (count + 1) _).1 ?_
          omega
      · intro h
        have hc : ¬ count > 2 := by omega
        rw [if_neg hc, hga]
        obtain ⟨us1, h1, h2⟩ := (ih (count + 1)
          (us0 ++ [mkUpdate scan "b0" (pyStrip "CMRR_DiffPA_2mm_4b0")
            (pyStrip scan.note) (setTagFor count)])).2 (by omega)
        refine ⟨mkUpdate scan "b0" (pyStrip "CMRR_DiffPA_2mm_4b0")
          (pyStrip scan.note) (setTagFor count) :: us1, ?_, ?_⟩
        · rw [h1]
          simp [List.append_assoc]
        · rw [List.range_succ_eq_map]
          simp only [List.map_cons, List.map_map, mkUpdate, Nat.add_zero]
          rw [h2]
          congr 1
          refine List.map_congr_left ?_
          intro j _
          simp only [Function.comp]
          congr 1
          omega

/-- The diffb0 loop skips a scan the filter rejects. -/
theorem diffb0Go_skip (scan : Scan) (rest : List Scan) (count : Nat)
    (g : Groups Nat) (hf : diffb0filter scan = false) :
    diffb0Go (scan :: rest) count g = diffb0Go rest count g := by
  simp only [diffb0Go, hf, Bool.false_eq_true, if_false]

/-- The diffb0 loop characterisation from the empty group map, as the
module starts it. -/
theorem diffb0Go_seq_nil :
    ∀ (scans : List Scan) (count : Nat),
      (1 ≤ (scans.filter diffb0filter).length
          ∧ 4 ≤ count + (scans.filter diffb0filter).length →
        diffb0Go scans count []
          = .error (.diffB0Error "found too many diff b0 scans"))
      ∧ (¬(1 ≤ (scans.filter diffb0filter).length
          ∧ 4 ≤ count + (scans.filter diffb0filter).length) →
        ∃ us1, diffb0Go scans count []
            = .ok (if us1.isEmpty then ([] : Groups Nat) else [(2, us1)])
          ∧ us1.map (fun u => u.tag)
            = (List.range (scans.filter diffb0filter).length).map
                (fun j => setTagFor (count + j))) := by
  intro scans
  induction scans with
  | nil =>
    intro count
    constructor
    · intro h
      simp at h
    · intro h
      refine ⟨[], by simp [diffb0Go], by simp⟩
  | cons scan rest ih =>
    intro count
    cases hf : diffb0filter scan with
    | false =>
      have hfilters : (scan :: rest).filter diffb0filter = rest.filter diffb0filter := by
        simp [List.filter_cons, hf]
      rw [hfilters, diffb0Go_skip scan rest count [] hf]
      exact ih count
    | true =>
      have hfilters : (scan :: rest).filter diffb0filter
          = scan :: rest.filter diffb0filter := by
        simp [List.filter_cons, hf]
      rw [hfilters, diffb0Go_step scan rest count [] hf, List.length_cons]
      have hga : groupApp ([] : Groups Nat) 2
          (mkUpdate scan "b0" (pyStrip "CMRR_DiffPA_2mm_4b0")
            (pyStrip scan.note) (setTagFor count))
          = [(2, [mkUpdate scan "b0" (pyStrip "CMRR_DiffPA_2mm_4b0")
            (pyStrip scan.note) (setTagFor count)])] := rfl
      constructor
      · intro h
        by_cases hc : count > 2
        · rw [if_pos hc]
        · rw [if_neg hc, hga]
          refine (diffb0Go_seq rest (count + 1) _).1 ?_
          omega
      · intro h
        have hc : ¬ count > 2 := by omega
        rw [if_neg hc, hga]
        obtain ⟨us1, h1, h2⟩ := (diffb0Go_seq rest (count + 1)
          [mkUpdate scan "b0" (pyStrip "CMRR_DiffPA_2mm_4b0")
            (pyStrip scan.note) (setTagFor count)]).2 (by omega)
        refine ⟨mkUpdate scan "b0" (pyStrip "CMRR_DiffPA_2mm_4b0")
          (pyStrip scan.note) (setTagFor count) :: us1, ?_, ?_⟩
        · rw [h1]
          simp [List.isEmpty, List.singleton_append]
        · rw [List.range_succ_eq_map]
          simp only [List.map_cons, List.map_map, mkUpdate, Nat.add_zero]
          rw [h2]
          congr 1
          refine List.map_congr_left ?_
          intro j _
          simp only [Function.comp]
          congr 1
          omega

/-- C3: over any scan listing, the diffb0 rule tags its matching scans
in encounter order with Set12 then Set34 (tag DIFF_2.0_4B0_{set}), and
raises DiffB0Error instead of tagging as soon as a third matching scan
is encountered. -/
theorem c3_diffb0_two_sets_then_error (scans : List Scan) (p : Protocol) :
    (2 < (scans.filter diffb0filter).length →
      diffb0 scans p = .error (.diffB0Error "found too many diff b0 scans"))
    ∧ ((scans.filter diffb0filter).length ≤ 2 →
      ∃ g, diffb0 scans p = .ok g
        ∧ (flattenG g).map (fun u => u.tag)
          = (List.range (scans.filter diffb0filter).length).map
              (fun j => if j == 0 then "DIFF_2.0_4B0_Set12"
                else "DIFF_2.0_4B0_Set34")) := by
  constructor
  · intro h
    have herr := (diffb0Go_seq_nil scans 1).1 (by omega)
    simpa [diffb0] using herr
  · intro h
    obtain ⟨us1, h1, h2⟩ := (diffb0Go_seq_nil scans 1).2 (by omega)
    refine ⟨(if us1.isEmpty then ([] : Groups Nat) else [(2, us1)]), ?_, ?_⟩
    · simp only [diffb0]
      exact h1
    have hfl : flattenG (if us1.isEmpty then ([] : Groups Nat) else [(2, us1)]) = us1 := by
      cases us1 with
      | nil => simp [flattenG]
      | cons a t => simp [flattenG]
    rw [hfl, h2]
    refine List.map_congr_left ?_
    intro j _
    cases j with
    | zero => rfl
    | succ m =>
      have hj : 1 + (m + 1) = m + 2 := by omega
      rw [hj]
      rfl

/-- C3, witness: three matching scans raise, two matching scans yield
Set12 then Set34. -/
theorem c3_diffb0_two_sets_then_error_witness :
    2 < ([b0scan "1", b0scan "2", b0scan "3"].filter diffb0filter).length
    ∧ diffb0 [b0scan "1", b0scan "2", b0scan "3"] .v1
        = .error (.diffB0Error "found too many diff b0 scans")
    ∧ ([b0scan "1", b0scan "2"].filter diffb0filter).length ≤ 2
    ∧ (diffb0 [b0scan "1", b0scan "2"] .v1).map
        (fun g => (flattenG g).map (fun u => u.tag))
      = .ok ["DIFF_2.0_4B0_Set12", "DIFF_2.0_4B0_Set34"] := by
  refine ⟨by decide,
    (c3_diffb0_two_sets_then_error [b0scan "1", b0scan "2", b0scan "3"] .v1).1 (by decide),
    by decide, ?_⟩
  obtain ⟨g, hg, ht⟩ :=
    (c3_diffb0_two_sets_then_error [b0scan "1", b0scan "2"] .v1).2 (by decide)
  rw [hg]
  simp only [Except.map, ht]
  decide

/-- The composed note text before the t1w suffix: the tag, with the
original stripped note after it when appending to a nonempty note. -/
def noteText (overwrite : Bool) (u : Update) : String :=
  if pyStrip u.note != "" && !overwrite then pyStrip u.tag ++ " " ++ pyStrip u.note
  else pyStrip u.tag

/-- Does the reconciliation loop bump the t1w counter at this scan:
exactly one update claims it and that update strips and lowercases to
modality t1w.  The bump does not depend on whether a note change is
emitted. -/
def isT1wFor (us : List Update) (s : Scan) : Bool :=
  match us.filter (fun u => u.scan == s.id) with
  | [u] => pyLower (pyStrip u.modality) == "t1w"
  | _ => false

/-- One emitting step of the reconciliation loop in closed form: with
exactly one claiming update whose tag is new, the scan contributes a
note write and the loop continues with the bumped counter. -/
theorem upsertGo_emit (overwrite : Bool) (us : List Update) (t : Nat) (s : Scan)
    (rest : List Scan) (u : Update)
    (hu : us.filter (fun v => v.scan == s.id) = [u])
    (hnew : pyIn (pyStrip u.tag) (pyStrip u.note) = false) :
    upsertGo overwrite us (s :: rest) t =
      Except.map
        (fun outs => (s.id,
          if pyLower (pyStrip u.modality) == "t1w"
            then noteText overwrite u ++ " #T1w_" ++ toString (t + 1)
            else noteText overwrite u) :: outs)
        (upsertGo overwrite us rest
          (if pyLower (pyStrip u.modality) == "t1w" then t + 1 else t)) := by
  simp only [upsertGo, hu, hnew, Bool.false_eq_true, if_false, noteText]
  cases hb : pyLower (pyStrip u.modality) == "t1w" <;> simp [hb]

/-- When no scan is claimed by two updates, the reconciliation loop
never raises. -/
theorem upsertGo_ok (overwrite : Bool) (us : List Update) :
    ∀ (scans : List Scan) (t : Nat),
      (∀ x ∈ scans, (us.filter (fun u => u.scan == x.id)).length ≤ 1) →
      ∃ outs, upsertGo overwrite us scans t = .ok outs := by
  intro scans
  induction scans with
  | nil =>
    intro t _
    exact ⟨[], rfl⟩
  | cons s rest ih =>
    intro t h
    have hrest := fun x hx => h x (List.mem_cons_of_mem _ hx)
    match hm : us.filter (fun u => u.scan == s.id) with
    | [] =>
      obtain ⟨outs, houts⟩ := ih t hrest
      exact ⟨outs, by simp only [upsertGo, hm]; exact houts⟩
    | [u] =>
      cases hseen : pyIn (pyStrip u.tag) (pyStrip u.note) with
      | true =>
        obtain ⟨outs, houts⟩ := ih
          (if pyLower (pyStrip u.modality) == "t1w" then t + 1 else t) hrest
        exact ⟨outs, by simp only [upsertGo, hm, hseen, if_true]; exact houts⟩
      | false =>
        obtain ⟨outs, houts⟩ := ih
          (if pyLower (pyStrip u.modality) == "t1w" then t + 1 else t) hrest
        rw [upsertGo_emit overwrite us t s rest u hm hseen, houts]
        exact ⟨_, rfl⟩
    | a :: b :: tl =>
      exfalso
      have := h s (List.mem_cons_self _ _)
      rw [hm] at this
      simp at this

/-- The t1w counter walk: if the scan s carries exactly one update, a
t1w one whose tag is new, then from counter state t the loop succeeds
and emits for s the composed note suffixed with the counter value
t plus the number of t1w-counted scans up to and including s. -/
theorem upsertGo_t1w_count (overwrite : Bool) (us : List Update) (s : Scan) (u : Update)
    (hu : us.filter (fun v => v.scan == s.id) = [u])
    (hmod : pyLower (pyStrip u.modality) = "t1w")
    (hnew : pyIn (pyStrip u.tag) (pyStrip u.note) = false) :
    ∀ (pre post : List Scan) (t : Nat),
      (∀ x ∈ pre ++ s :: post, (us.filter (fun v => v.scan == x.id)).length ≤ 1) →
      ∃ outs, upsertGo overwrite us (pre ++ s :: post) t = .ok outs
        ∧ (s.id, noteText overwrite u ++ " #T1w_"
            ++ toString (t + ((pre ++ [s]).filter (isT1wFor us)).length)) ∈ outs := by
  have hbeq : (pyLower (pyStrip u.modality) == "t1w") = true := by
    simp [hmod]
  intro pre
  induction pre with
  | nil =>
    intro post t hamb
    have hs : isT1wFor us s = true := by
      simp only [isT1wFor, hu]
      exact hbeq
    have hcnt : ((([] : List Scan) ++ [s]).filter (isT1wFor us)).length = 1 := by
      simp [List.filter_cons, hs]
    obtain ⟨outs, houts⟩ := upsertGo_ok overwrite us post (t + 1)
      (fun x hx => hamb x (List.mem_cons_of_mem _ hx))
    refine ⟨(s.id, noteText overwrite u ++ " #T1w_" ++ toString (t + 1)) :: outs, ?_, ?_⟩
    · simp only [List.nil_append, upsertGo, hu, hnew, Bool.false_eq_true, if_false,
        hbeq, if_true, houts, Except.map, noteText]
    · rw [hcnt]
      exact List.mem_cons_self _ _
  | cons x pre' ih =>
    intro post t hamb
    have hx := hamb x (List.mem_cons_self _ _)
    have hambrest := fun y hy => hamb y (List.mem_cons_of_mem _ hy)
    match hmx : us.filter (fun v => v.scan == x.id) with
    | [] =>
      have hxt : isT1wFor us x = false := by
        simp [isT1wFor, hmx]
      obtain ⟨outs, h1, h2⟩ := ih post t hambrest
      refine ⟨outs, ?_, ?_⟩
      · simp only [List.cons_append, upsertGo, hmx]
        exact h1
      · simpa [List.filter_cons, hxt] using h2
    | [v] =>
      have hxt : isT1wFor us x = (pyLower (pyStrip v.modality) == "t1w") := by
        simp [isT1wFor, hmx]
      obtain ⟨outs, h1, h2⟩ := ih post
        (if pyLower (pyStrip v.modality) == "t1w" then t + 1 else t) hambrest
      have harith : t + ((x :: (pre' ++ [s])).filter (isT1wFor us)).length
          = (if pyLower (pyStrip v.modality) == "t1w" then t + 1 else t)
            + ((pre' ++ [s]).filter (isT1wFor us)).length := by
        simp only [List.filter_cons, hxt]
        cases pyLower (pyStrip v.modality) == "t1w" with
        | true =>
          simp
          omega
        | false =>
          simp
      cases hseen : pyIn (pyStrip v.tag) (pyStrip v.note) with
      | true =>
        refine ⟨outs, ?_, ?_⟩
        · rw [List.cons_append]
          simp only [upsertGo, hmx, hseen, if_true]
          exact h1
        · rw [List.cons_append, harith]
          exact h2
      | false =>
        refine ⟨(x.id,
          if pyLower (pyStrip v.modality) == "t1w"
            then noteText overwrite v ++ " #T1w_" ++ toString (t + 1)
            else noteText overwrite v) :: outs, ?_, ?_⟩
        · rw [List.cons_append,
            upsertGo_emit overwrite us t x (pre' ++ s :: post) v hmx hseen, h1]
          rfl
        · rw [List.cons_append, harith]
          exact List.mem_cons_of_mem _ h2
    | a :: b :: tl =>
      exfalso
      rw [hmx] at hx
      simp at hx

/-- C6: the hash-T1w suffix is driven by one counter shared across all
rule modules and advanced in scan-list order during reconciliation:
starting from 0 it is bumped on every t1w-claimed scan regardless of
whether a note change is emitted, and a t1w-claimed scan s whose tag is
new receives the suffix number equal to the count of t1w-claimed scans
up to and including s, whichever modules produced the updates. -/
theorem c6_t1w_counter_cross_module (overwrite : Bool) (us : List Update)
    (pre post : List Scan) (s : Scan) (u : Update)
    (hamb : ∀ x ∈ pre ++ s :: post, (us.filter (fun v => v.scan == x.id)).length ≤ 1)
    (hu : us.filter (fun v => v.scan == s.id) = [u])
    (hmod : pyLower (pyStrip u.modality) = "t1w")
    (hnew : pyIn (pyStrip u.tag) (pyStrip u.note) = false) :
    ∃ outs, upsertGo overwrite us (pre ++ s :: post) 0 = .ok outs
      ∧ (s.id, noteText overwrite u ++ " #T1w_"
          ++ toString (((pre ++ [s]).filter (isT1wFor us)).length)) ∈ outs := by
  obtain ⟨outs, h1, h2⟩ :=
    upsertGo_t1w_count overwrite us s u hu hmod hnew pre post 0 hamb
  refine ⟨outs, h1, ?_⟩
  simpa using h2

/-- A plain scan for the C6 witness. -/
def c6scan (i : String) : Scan :=
  { id := i, session_project := "P", subject_label := "S", session_label := "E1",
    series_description := "sd", image_type := none,
    quality := "usable", note := "", vox_x := "1.0" }

/-- A t1w update claiming scan i with tag tg, for the C6 witness. -/
def c6u (i tg : String) : Update :=
  { project := "P", subject := "S", session := "E1", scan := i,
    modality := "t1w", series_description := "sd", note := "", tag := tg }

/-- Three t1w updates for scans 1, 2, 3. -/
def c6us : List Update := [c6u "1" "T1", c6u "2" "T2", c6u "3" "T3"]

/-- C6, witness: three t1w-claimed scans in order receive suffixes
T1w_1, T1w_2, T1w_3; the third one is obtained from the counter
theorem. -/
theorem c6_t1w_counter_cross_module_witness :
    upsertGo false c6us [c6scan "1", c6scan "2", c6scan "3"] 0
      = .ok [("1", "T1 #T1w_1"), ("2", "T2 #T1w_2"), ("3", "T3 #T1w_3")]
    ∧ ("3", noteText false (c6u "3" "T3") ++ " #T1w_"
        ++ toString ((([c6scan "1", c6scan "2"] ++ [c6scan "3"]).filter
            (isT1wFor c6us)).length))
      ∈ [("1", "T1 #T1w_1"), ("2", "T2 #T1w_2"), ("3", "T3 #T1w_3")] := by
  have hrun : upsertGo false c6us [c6scan "1", c6scan "2", c6scan "3"] 0
      = .ok [("1", "T1 #T1w_1"), ("2", "T2 #T1w_2"), ("3", "T3 #T1w_3")] := by
    decide
  refine ⟨hrun, ?_⟩
  obtain ⟨outs, h1, h2⟩ := c6_t1w_counter_cross_module false c6us
    [c6scan "1", c6scan "2"] [] (c6scan "3") (c6u "3" "T3")
    (by decide) (by decide) (by decide) (by decide)
  have hpre : [c6scan "1", c6scan "2"] ++ c6scan "3" :: []
      = [c6scan "1", c6scan "2", c6scan "3"] := by decide
  rw [hpre, hrun] at h1
  injection h1 with h1
  rw [← h1] at h2
  exact h2

/-- The head of a dropWhile result fails the predicate. -/
theorem dropWhile_head?_false (p : Char → Bool) (l : List Char) (c : Char)
    (h : (l.dropWhile p).head? = some c) : p c = false := by
  have hd := List.head?_dropWhile_not p l
  rw [h] at hd
  exact hd

/-- dropWhile is the identity when the head already fails the predicate. -/
theorem dropWhile_eq_self_of_head (p : Char → Bool) (l : List Char)
    (h : ∀ c, l.head? = some c → p c = false) : l.dropWhile p = l := by
  cases l with
  | nil => rfl
  | cons a t =>
    have ha := h a rfl
    simp [List.dropWhile_cons, ha]

/-- A nonempty dropWhile result keeps the last element of the input. -/
theorem dropWhile_getLast? (p : Char → Bool) (l : List Char)
    (h : l.dropWhile p ≠ []) : (l.dropWhile p).getLast? = l.getLast? := by
  induction l with
  | nil => simp at h
  | cons a t ih =>
    by_cases hp : p a
    · rw [List.dropWhile_cons_of_pos hp] at h ⊢
      rw [ih h]
      have ht : t ≠ [] := by
        intro he
        rw [he] at h
        simp at h
      cases t with
      | nil => exact absurd rfl ht
      | cons b t2 => rw [List.getLast?_cons_cons]
    · rw [List.dropWhile_cons_of_neg hp]

/-- The stripped list neither starts nor ends with whitespace. -/
theorem stripList_ends (l : List Char) :
    (∀ c, (stripList l).head? = some c → pyIsWs c = false)
    ∧ (∀ c, (stripList l).getLast? = some c → pyIsWs c = false) := by
  constructor
  · intro c hc
    rw [stripList, List.head?_reverse] at hc
    have hne : (l.dropWhile pyIsWs).reverse.dropWhile pyIsWs ≠ [] := by
      intro h0
      rw [h0] at hc
      simp at hc
    rw [dropWhile_getLast? _ _ hne, List.getLast?_reverse] at hc
    exact dropWhile_head?_false _ _ _ hc
  · intro c hc
    rw [stripList, List.getLast?_reverse] at hc
    exact dropWhile_head?_false _ _ _ hc

/-- Stripping does nothing when neither end is whitespace. -/
theorem stripList_eq_self (l : List Char)
    (h1 : ∀ c, l.head? = some c → pyIsWs c = false)
    (h2 : ∀ c, l.getLast? = some c → pyIsWs c = false) :
    stripList l = l := by
  rw [stripList, dropWhile_eq_self_of_head _ _ h1,
    dropWhile_eq_self_of_head _ _ ?_, List.reverse_reverse]
  intro c hc
  rw [List.head?_reverse] at hc
  exact h2 c hc

/-- stripList is idempotent. -/
theorem stripList_idem (l : List Char) : stripList (stripList l) = stripList l :=
  stripList_eq_self _ (stripList_ends l).1 (stripList_ends l).2

/-- str.strip is idempotent. -/
theorem pyStrip_idem (s : String) : pyStrip (pyStrip s) = pyStrip s :=
  congrArg String.mk (stripList_idem s.data)

/-- str.strip changes nothing when the first and last characters are
not whitespace. -/
theorem pyStrip_eq_self (s : String)
    (h1 : ∀ c, s.data.head? = some c → pyIsWs c = false)
    (h2 : ∀ c, s.data.getLast? = some c → pyIsWs c = false) :
    pyStrip s = s := by
  cases s with
  | mk l => exact congrArg String.mk (stripList_eq_self l h1 h2)

/-- An update both of whose tag and note are already stripped, as every
rule module produces them. -/
def goodUpd (u : Update) : Prop :=
  pyStrip u.tag = u.tag ∧ pyStrip u.note = u.note

/-- Membership in a flattened group map after a defaultdict append. -/
theorem flattenG_groupApp_mem {κ : Type} [DecidableEq κ] (g : Groups κ) (k : κ)
    (w u : Update) (h : u ∈ flattenG (groupApp g k w)) :
    u ∈ flattenG g ∨ u = w := by
  induction g with
  | nil =>
    simp only [groupApp, flattenG, List.append_nil] at h
    rw [List.mem_singleton] at h
    exact Or.inr h
  | cons q t ih =>
    obtain ⟨k2, us⟩ := q
    by_cases hk : k2 = k
    · subst hk
      simp only [groupApp, if_pos rfl, flattenG] at h
      rcases List.mem_append.mp h with h | h
      · rcases List.mem_append.mp h with h | h
        · exact Or.inl (List.mem_append.mpr (Or.inl h))
        · rw [List.mem_singleton] at h
          exact Or.inr h
      · exact Or.inl (List.mem_append.mpr (Or.inr h))
    · simp only [groupApp, if_neg hk, flattenG] at h
      rcases List.mem_append.mp h with h | h
      · exact Or.inl (List.mem_append.mpr (Or.inl h))
      · rcases ih h with h2 | h2
        · exact Or.inl (List.mem_append.mpr (Or.inr h2))
        · exact Or.inr h2

/-- No letter of the alphabet is whitespace. -/
theorem asciiLowercase_not_ws : ∀ c ∈ asciiLowercase, pyIsWs c = false := by
  decide

/-- A string of the shape x ++ y whose first character is the
non-whitespace d and whose final segment y ends in the non-whitespace
e is unchanged by str.strip. -/
theorem pyStrip_append_suffix (x y : String) (d e : Char)
    (hhead : (x ++ y).data.head? = some d) (hd : pyIsWs d = false)
    (hyne : y.data ≠ []) (hlast : y.data.getLast? = some e) (he : pyIsWs e = false) :
    pyStrip (x ++ y) = x ++ y := by
  apply pyStrip_eq_self
  · intro f hf
    rw [hhead] at hf
    injection hf with hf
    rw [← hf]
    exact hd
  · intro f hf
    have h0 : (x ++ y).data = x.data ++ y.data := rfl
    rw [h0, List.getLast?_append_of_ne_nil _ hyne, hlast] at hf
    injection hf with hf
    rw [← hf]
    exact he

/-- The csx6 loop only produces updates with stripped tag and note. -/
theorem csx6Go_good (flt : Scan → Except PyErr Bool) :
    ∀ (scans : List Scan) (groups g : Groups Nat),
      (∀ u ∈ flattenG groups, goodUpd u) → csx6Go flt scans groups = .ok g →
      ∀ u ∈ flattenG g, goodUpd u := by
  intro scans
  induction scans with
  | nil =>
    intro groups g hinv hok
    simp only [csx6Go] at hok
    cases hok
    exact hinv
  | cons scan rest ih =>
    intro groups g hinv hok
    simp only [csx6Go] at hok
    cases hflt : flt scan with
    | error e => rw [hflt] at hok; simp at hok
    | ok keep =>
      rw [hflt] at hok
      cases keep with
      | false =>
        simp only [if_neg Bool.false_ne_true] at hok
        exact ih _ _ hinv hok
      | true =>
        simp only [if_pos rfl] at hok
        cases hm : csx6GroupMatch (pyStrip scan.series_description).data with
        | none =>
          simp only [hm] at hok
          exact ih _ _ hinv hok
        | some ds =>
          simp only [hm] at hok
          by_cases h : (groupGet groups (digitsVal ds)).length < asciiLowercase.length
          case pos =>
            rw [dif_pos h] at hok
            refine ih _ _ ?_ hok
            intro u hu
            rcases flattenG_groupApp_mem _ _ _ _ hu with h2 | h2
            · exact hinv u h2
            · subst h2
              refine ⟨?_, pyStrip_idem _⟩
              refine pyStrip_append_suffix _ _ 'A' _ rfl (by decide)
                (List.cons_ne_nil _ _) rfl ?_
              exact asciiLowercase_not_ws _ (List.get_mem asciiLowercase _ h)
          case neg =>
            rw [dif_neg h] at hok
            simp at hok

/-- The wave loop only produces updates with stripped tag and note. -/
theorem waveGo_good :
    ∀ (scans : List Scan) (rr_num rr_tag : Nat) (groups g : Groups Nat),
      (∀ u ∈ flattenG groups, goodUpd u) → waveGo scans rr_num rr_tag groups = .ok g →
      ∀ u ∈ flattenG g, goodUpd u := by
  intro scans
  induction scans with
  | nil =>
    intro rr_num rr_tag groups g hinv hok
    simp only [waveGo] at hok
    cases hok
    exact hinv
  | cons scan rest ih =>
    intro rr_num rr_tag groups g hinv hok
    simp only [waveGo] at hok
    cases hflt : wavefilter scan with
    | error e => rw [hflt] at hok; simp at hok
    | ok keep =>
      rw [hflt] at hok
      cases keep with
      | false =>
        simp only [if_neg Bool.false_ne_true] at hok
        exact ih _ _ _ _ hinv hok
      | true =>
        simp only [if_pos rfl] at hok
        cases hm : waveGroupMatch (pyStrip scan.series_description).data with
        | none =>
          simp only [hm] at hok
          exact ih _ _ _ _ hinv hok
        | some dsrr =>
          obtain ⟨ds, is_rr⟩ := dsrr
          simp only [hm] at hok
          by_cases h : (groupGet groups (digitsVal ds)).length < asciiLowercase.length
          case pos =>
            rw [dif_pos h] at hok
            cases is_rr with
            | true =>
              simp only [if_pos rfl] at hok
              refine ih _ _ _ _ ?_ hok
              intro u hu
              rcases flattenG_groupApp_mem _ _ _ _ hu with h2 | h2
              · exact hinv u h2
              · subst h2
                refine ⟨?_, pyStrip_idem _⟩
                refine pyStrip_append_suffix _ _ 'A' _ rfl (by decide)
                  (List.cons_ne_nil _ _) rfl ?_
                exact asciiLowercase_not_ws _ (List.get_mem asciiLowercase _ h)
            | false =>
              simp only [if_neg Bool.false_ne_true] at hok
              refine ih _ _ _ _ ?_ hok
              intro u hu
              rcases flattenG_groupApp_mem _ _ _ _ hu with h2 | h2
              · exact hinv u h2
              · subst h2
                refine ⟨?_, pyStrip_idem _⟩
                refine pyStrip_append_suffix _ _ 'A' _ rfl (by decide)
                  (List.cons_ne_nil _ _) rfl ?_
                exact asciiLowercase_not_ws _ (List.get_mem asciiLowercase _ h)
          case neg =>
            rw [dif_neg h] at hok
            simp at hok

/-- The adni loop only produces updates with stripped tag and note. -/
theorem adniGo_good (flt : Scan → Bool) :
    ∀ (scans : List Scan) (groups : Groups String),
      (∀ u ∈ flattenG groups, goodUpd u) →
      ∀ u ∈ flattenG (adniGo flt scans groups), goodUpd u := by
  intro scans
  induction scans with
  | nil =>
    intro groups hinv
    simpa only [adniGo] using hinv
  | cons scan rest ih =>
    intro groups hinv
    simp only [adniGo]
    cases hflt : flt scan with
    | false =>
      simp only [Bool.false_eq_true, if_false]
      exact ih _ hinv
    | true =>
      simp only [if_true]
      refine ih _ ?_
      intro u hu
      rcases flattenG_groupApp_mem _ _ _ _ hu with h2 | h2
      · exact hinv u h2
      · subst h2
        refine ⟨?_, pyStrip_idem _⟩
        refine pyStrip_append_suffix _ "_ADNI" 'A' 'I' rfl (by decide)
          (by decide) (by decide) (by decide)

/-- The diffb0 loop only produces updates with stripped tag and note. -/
theorem diffb0Go_good :
    ∀ (scans : List Scan) (count : Nat) (groups g : Groups Nat),
      (∀ u ∈ flattenG groups, goodUpd u) → diffb0Go scans count groups = .ok g →
      ∀ u ∈ flattenG g, goodUpd u := by
  intro scans
  induction scans with
  | nil =>
    intro count groups g hinv hok
    simp only [diffb0Go] at hok
    cases hok
    exact hinv
  | cons scan rest ih =>
    intro count groups g hinv hok
    simp only [diffb0Go] at hok
    cases hf : diffb0filter scan with
    | false =>
      simp only [hf, Bool.false_eq_true, if_false] at hok
      exact ih _ _ _ hinv hok
    | true =>
      simp only [hf, if_true] at hok
      cases hm : diffb0GroupMatch (pyStrip scan.series_description).data with
      | none =>
        simp only [hm] at hok
        exact ih _ _ _ hinv hok
      | some ds =>
        simp only [hm] at hok
        by_cases hc : count > 2
        · rw [if_pos hc] at hok
          simp at hok
        · rw [if_neg hc] at hok
          refine ih _ _ _ ?_ hok
          intro u hu
          rcases flattenG_groupApp_mem _ _ _ _ hu with h2 | h2
          · exact hinv u h2
          · subst h2
            refine ⟨?_, pyStrip_idem _⟩
            cases count == 1 with
            | true =>
              exact pyStrip_append_suffix _ "Set12" 'D' '2' rfl (by decide)
                (by decide) (by decide) (by decide)
            | false =>
              exact pyStrip_append_suffix _ "Set34" 'D' '4' rfl (by decide)
                (by decide) (by decide) (by decide)

/-- Every update of a successful classify pass has stripped tag and
note. -/
theorem classify_good (scans : List Scan) (p : Protocol) (m : UpdatesMap)
    (hok : classify scans p = .ok m) : ∀ u ∈ squeeze m, goodUpd u := by
  simp only [classify] at hok
  cases hc : csx6 scans p with
  | error e => rw [hc] at hok; simp at hok
  | ok c =>
    simp only [hc] at hok
    cases hw : wave scans p with
    | error e => rw [hw] at hok; simp at hok
    | ok w =>
      simp only [hw] at hok
      cases hd : diffb0 scans p with
      | error e => rw [hd] at hok; simp at hok
      | ok d =>
        simp only [hd] at hok
        injection hok with hok
        subst hok
        intro u hu
        simp only [squeeze] at hu
        have hemptyN : ∀ u2 ∈ flattenG ([] : Groups Nat), goodUpd u2 := by
          intro u2 hu2
          simp [flattenG] at hu2
        have hemptyS : ∀ u2 ∈ flattenG ([] : Groups String), goodUpd u2 := by
          intro u2 hu2
          simp [flattenG] at hu2
        rcases List.mem_append.mp hu with hu | hu
        · rcases List.mem_append.mp hu with hu | hu
          · rcases List.mem_append.mp hu with hu | hu
            · simp only [csx6] at hc
              exact csx6Go_good _ scans [] c hemptyN hc u hu
            · simp only [wave] at hw
              exact waveGo_good scans 0 0 [] w hemptyN hw u hu
          · exact adniGo_good _ scans [] hemptyS u hu
        · simp only [diffb0] at hd
          exact diffb0Go_good scans 1 [] d hemptyN hd u hu

/-- When every update's tag is already inside its note and no scan is
claimed twice, the reconciliation loop emits nothing. -/
theorem upsertGo_all_seen (overwrite : Bool) (us : List Update)
    (hseen : ∀ u ∈ us, pyIn (pyStrip u.tag) (pyStrip u.note) = true) :
    ∀ (scans : List Scan) (t : Nat),
      (∀ x ∈ scans, (us.filter (fun u => u.scan == x.id)).length ≤ 1) →
      upsertGo overwrite us scans t = .ok [] := by
  intro scans
  induction scans with
  | nil =>
    intro t _
    rfl
  | cons s rest ih =>
    intro t h
    have hrest := fun x hx => h x (List.mem_cons_of_mem _ hx)
    match hm : us.filter (fun u => u.scan == s.id) with
    | [] =>
      simp only [upsertGo, hm]
      exact ih t hrest
    | [u] =>
      have hu : u ∈ us := by
        have hmem : u ∈ us.filter (fun u => u.scan == s.id) := by
          rw [hm]
          exact List.mem_singleton_self u
        exact List.mem_of_mem_filter hmem
      simp only [upsertGo, hm, hseen u hu, if_true]
      exact ih _ hrest
    | a :: b :: tl =>
      exfalso
      have hlen := h s (List.mem_cons_self _ _)
      rw [hm] at hlen
      simp at hlen

/-- C5: reconciliation emits no note change for a scan whose note
already contains its target tag; hence re-running classify and upsert
on a scan list where every produced update's note contains its tag (as
after a completed previous pass, which also means no scan is claimed
by two updates) performs no write at all. -/
theorem c5_rerun_empty_updates (scans : List Scan) (p : Protocol)
    (overwrite : Bool) (m : UpdatesMap) (hok : classify scans p = .ok m)
    (hseen : ∀ u ∈ squeeze m, pyIn u.tag u.note = true)
    (hamb : ∀ x ∈ scans, ((squeeze m).filter (fun u => u.scan == x.id)).length ≤ 1) :
    upsert scans m overwrite = .ok [] := by
  have hgood := classify_good scans p m hok
  refine upsertGo_all_seen overwrite (squeeze m) ?_ scans 0 hamb
  intro u hu
  rw [(hgood u hu).1, (hgood u hu).2]
  exact hseen u hu

/-- The classify output of the one-scan C5 witness session: the scan
is already tagged in its note. -/
def c5u : Update :=
  { project := "P", subject := "S", session := "E1", scan := "1",
    modality := "t1w", series_description := "WIP19_1mmCor_1_2_CSx6",
    note := "ANAT_1.0_CSx6_a", tag := "ANAT_1.0_CSx6_a" }

/-- The updates dictionary of the C5 witness session. -/
def c5m : UpdatesMap :=
  { csx6 := [(1, [c5u])], wave := [], adni := [], diffb0 := [] }

/-- C5, witness: a session whose single matching scan already carries
its tag in the note classifies to c5m, and reconciliation emits
nothing. -/
theorem c5_rerun_empty_updates_witness :
    classify [v2scan "1" "ANAT_1.0_CSx6_a"] .v2 = .ok c5m
    ∧ upsert [v2scan "1" "ANAT_1.0_CSx6_a"] c5m false = .ok [] :=
  ⟨by decide,
   c5_rerun_empty_updates [v2scan "1" "ANAT_1.0_CSx6_a"] .v2 false c5m
     (by decide) (by decide) (by decide)⟩

end MadrcTagger
